import Mathlib

/-!
Verification development for the recipe-app-api repository.

The Django data model and the recipe/tag/ingredient CRUD layer are shallowly
embedded: database tables become lists of records, many-to-many association
tables become lists of id pairs, and the serializer/view methods become pure
functions on an explicit `DB` state.  Each definition mirrors one function of
the source (`app/recipe/serializers.py`, `app/recipe/views.py`,
`app/user/serializers.py`); the user manager (`core/models.py` is not among
the provided sources) is modelled from the specification and from
`app/core/tests/test_models.py`.
-/

set_option autoImplicit false

namespace RecipeApp

/-- A user record (`core.models.User`): id, stored email, hashed password,
display name. -/
structure User where
  id : Nat
  email : String
  passwordHash : String
  name : String
  deriving DecidableEq

/-- A tag record (`core.models.Tag`): id, owning user id, name. -/
structure Tag where
  id : Nat
  user : Nat
  name : String
  deriving DecidableEq

/-- An ingredient record (`core.models.Ingredient`): id, owning user id, name. -/
structure Ingredient where
  id : Nat
  user : Nat
  name : String
  deriving DecidableEq

/-- A recipe record (`core.models.Recipe`): id, owning user id and scalar
fields.  `price` is modelled as an integer number of cents; the image field is
outside the claims and omitted. -/
structure Recipe where
  id : Nat
  user : Nat
  title : String
  timeMinutes : Nat
  price : Int
  link : String
  description : String
  deriving DecidableEq

/-- The database state: one list per table, one list of (recipe id, entry id)
pairs per many-to-many association table, and the auto-increment counters for
primary keys. -/
structure DB where
  users : List User
  recipes : List Recipe
  tags : List Tag
  ingredients : List Ingredient
  recipeTags : List (Nat × Nat)
  recipeIngredients : List (Nat × Nat)
  nextUserId : Nat
  nextRecipeId : Nat
  nextTagId : Nat
  nextIngredientId : Nat
  deriving DecidableEq

/-- The empty database. -/
def emptyDB : DB :=
  ⟨[], [], [], [], [], [], 1, 1, 1, 1⟩

/-- Embeds `Tag.objects.filter(user=.., name=..).first()`: the lookup half of
`Tag.objects.get_or_create(user=user, **tag)`.  Uniqueness of (owner, name) is
by convention in the source (no DB constraint), so the first match is taken. -/
def findTag (db : DB) (u : Nat) (n : String) : Option Tag :=
  db.tags.find? (fun t => t.user == u && t.name == n)

/-- Embeds `Ingredient.objects.filter(user=.., name=..).first()`. -/
def findIngredient (db : DB) (u : Nat) (n : String) : Option Ingredient :=
  db.ingredients.find? (fun i => i.user == u && i.name == n)

/-- Embeds `instance.tags.add(obj)` / `instance.ingredients.add(obj)`: Django's
many-to-many `add` inserts the pair only when it is not already present
(set semantics). -/
def addAssoc (l : List (Nat × Nat)) (p : Nat × Nat) : List (Nat × Nat) :=
  if p ∈ l then l else l ++ [p]

/-- Embeds `Tag.objects.get_or_create(user=user, name=n)`: return the existing row
if one matches (owner, name), otherwise insert a fresh row with the next id. -/
def getOrCreateTag (db : DB) (u : Nat) (n : String) : Tag × DB :=
  match findTag db u n with
  | some t => (t, db)
  | none =>
      let t : Tag := ⟨db.nextTagId, u, n⟩
      (t, { db with tags := db.tags ++ [t], nextTagId := db.nextTagId + 1 })

/-- Embeds `Ingredient.objects.get_or_create(user=user, name=n)`. -/
def getOrCreateIngredient (db : DB) (u : Nat) (n : String) : Ingredient × DB :=
  match findIngredient db u n with
  | some i => (i, db)
  | none =>
      let i : Ingredient := ⟨db.nextIngredientId, u, n⟩
      (i, { db with ingredients := db.ingredients ++ [i],
                    nextIngredientId := db.nextIngredientId + 1 })

/-- Embeds `RecipeSerializer._get_or_create_tags(tags, instance)`: for each payload
name in input order, get-or-create the (owner, name) tag and add it to the
recipe `rid`'s association set. -/
def getOrCreateTags (db : DB) (u : Nat) (names : List String) (rid : Nat) : DB :=
  match names with
  | [] => db
  | n :: rest =>
      let pr := getOrCreateTag db u n
      let db1 := { pr.2 with recipeTags := addAssoc pr.2.recipeTags (rid, pr.1.id) }
      getOrCreateTags db1 u rest rid

/-- Embeds `RecipeSerializer._get_or_create_ingredients(ingredients, instance)`. -/
def getOrCreateIngredients (db : DB) (u : Nat) (names : List String) (rid : Nat) : DB :=
  match names with
  | [] => db
  | n :: rest =>
      let pr := getOrCreateIngredient db u n
      let db1 := { pr.2 with
                    recipeIngredients := addAssoc pr.2.recipeIngredients (rid, pr.1.id) }
      getOrCreateIngredients db1 u rest rid

/-- Embeds `instance.tags.clear()`: drop every association row of recipe `rid` from
the recipe-tag table. -/
def clearRecipeTags (db : DB) (rid : Nat) : DB :=
  { db with recipeTags := db.recipeTags.filter (fun q => !(q.1 == rid)) }

/-- The tag ids currently associated with recipe `rid`. -/
def recipeTagIds (db : DB) (rid : Nat) : List Nat :=
  (db.recipeTags.filter (fun q => q.1 == rid)).map (fun q => q.2)

/-- The ingredient ids currently associated with recipe `rid`. -/
def recipeIngredientIds (db : DB) (rid : Nat) : List Nat :=
  (db.recipeIngredients.filter (fun q => q.1 == rid)).map (fun q => q.2)

/-- A validated recipe-creation payload.  The writable fields are exactly
`RecipeSerializer.Meta.fields` minus the read-only `id`: `title`,
`time_minutes`, `price`, `link`, the nested `tags` and `ingredients` name
lists (absent fields were not supplied; `create` pops them with default `[]`),
and `description` through `RecipeDetailSerializer`.  There is no `user` field:
the serializer cannot accept an owner from the client. -/
structure CreatePayload where
  title : String
  timeMinutes : Nat
  price : Int
  link : String
  description : String
  tags : Option (List String)
  ingredients : Option (List String)
  deriving DecidableEq

/-- Embeds `Recipe.objects.create(**validated_data)`: insert the recipe row
with the next id, owned by `u`, with the payload scalars. -/
def insertRecipeRow (db : DB) (u : Nat) (p : CreatePayload) : DB :=
  { db with
      recipes := db.recipes ++
        [⟨db.nextRecipeId, u, p.title, p.timeMinutes, p.price, p.link, p.description⟩],
      nextRecipeId := db.nextRecipeId + 1 }

/-- Embeds `RecipeSerializer.create(validated_data)` as invoked through
`RecipeViewSet.perform_create`, which calls `serializer.save(user=request.user)`:
pop `tags` and `ingredients` (default `[]`), create the recipe row with the
caller `u` as owner, then reconcile both catalog kinds.  Returns the new state
and the new recipe's id. -/
def createRecipe (db : DB) (u : Nat) (p : CreatePayload) : DB × Nat :=
  let rid := db.nextRecipeId
  let db1 := insertRecipeRow db u p
  let db2 := getOrCreateTags db1 u (p.tags.getD []) rid
  let db3 := getOrCreateIngredients db2 u (p.ingredients.getD []) rid
  (db3, rid)

/-- A validated recipe-update payload: every writable field optional (PATCH
omits fields; `required=False` lets PUT omit the nested lists too). -/
structure UpdatePayload where
  title : Option String
  timeMinutes : Option Nat
  price : Option Int
  link : Option String
  description : Option String
  tags : Option (List String)
  ingredients : Option (List String)
  deriving DecidableEq

/-- The `setattr` loop of `RecipeSerializer.update` restricted to scalar
fields: each field present in the validated payload overwrites the instance
field. -/
def setScalars (r : Recipe) (p : UpdatePayload) : Recipe :=
  { r with
      title := p.title.getD r.title,
      timeMinutes := p.timeMinutes.getD r.timeMinutes,
      price := p.price.getD r.price,
      link := p.link.getD r.link,
      description := p.description.getD r.description }

/-- Embeds `RecipeSerializer.update(instance, validated_data)`.  The source pops only
`tags`: if present, the instance's tag associations are cleared and rebuilt by
get-or-create.  `ingredients` is NOT popped, so when it is present the
`setattr` loop reaches `setattr(instance, 'ingredients', [...])`, and direct
assignment to a many-to-many attribute raises `TypeError`; `instance.save()`
is then never reached, so the pending scalar assignments are discarded while
the tag-side mutations (already issued against the association table) remain.
The returned flag is `false` on that error path and `true` when `update`
returns normally. -/
def updateRecipe (db : DB) (rid : Nat) (u : Nat) (p : UpdatePayload) : DB × Bool :=
  let db1 :=
    match p.tags with
    | none => db
    | some names => getOrCreateTags (clearRecipeTags db rid) u names rid
  match p.ingredients with
  | some _ => (db1, false)
  | none =>
      ({ db1 with
          recipes := db1.recipes.map (fun r => if r.id == rid then setScalars r p else r) },
       true)

/-- Insert `a` into `l` so that, if `l` is sorted by descending key `f`, the
result still is. -/
def insertDescBy {α β : Type} [LinearOrder β] (f : α → β) (a : α) : List α → List α
  | [] => [a]
  | b :: l => if f b ≤ f a then a :: b :: l else b :: insertDescBy f a l

/-- Sort by descending key `f` (the meaning of SQL `ORDER BY f DESC`). -/
def sortDescBy {α β : Type} [LinearOrder β] (f : α → β) : List α → List α
  | [] => []
  | a :: l => insertDescBy f a (sortDescBy f l)

/-- Embeds `RecipeViewSet.get_queryset`: the caller's recipes ordered by `-id`. -/
def recipeListFor (db : DB) (u : Nat) : List Recipe :=
  sortDescBy Recipe.id (db.recipes.filter (fun r => r.user == u))

/-- Embeds `TagViewSet.get_queryset`: the caller's tags ordered by `-name`. -/
def tagListFor (db : DB) (u : Nat) : List Tag :=
  sortDescBy Tag.name (db.tags.filter (fun t => t.user == u))

/-- Embeds `IngredientViewSet.get_queryset`: the caller's ingredients ordered by
`-name`. -/
def ingredientListFor (db : DB) (u : Nat) : List Ingredient :=
  sortDescBy Ingredient.name (db.ingredients.filter (fun i => i.user == u))

/-- Embeds `get_object()` for the recipe detail/update/delete routes: DRF resolves
the pk inside `get_queryset()`, i.e. inside the caller-filtered set, via
`get_object_or_404`. -/
def getRecipeObject (db : DB) (u : Nat) (rid : Nat) : Option Recipe :=
  (db.recipes.filter (fun r => r.user == u)).find? (fun r => r.id == rid)

/-- HTTP status of a recipe detail/update/delete lookup: 200 when the object
resolves, else 404 (`get_object_or_404`); a foreign-owned row is simply
outside the queryset, so no 403 is ever produced by this path. -/
def recipeDetailStatus (db : DB) (u : Nat) (rid : Nat) : Nat :=
  match getRecipeObject db u rid with
  | some _ => 200
  | none => 404

/-- Embeds `get_object()` for the tag update/delete routes. -/
def getTagObject (db : DB) (u : Nat) (tid : Nat) : Option Tag :=
  (db.tags.filter (fun t => t.user == u)).find? (fun t => t.id == tid)

/-- HTTP status of a tag update/delete lookup. -/
def tagDetailStatus (db : DB) (u : Nat) (tid : Nat) : Nat :=
  match getTagObject db u tid with
  | some _ => 200
  | none => 404

/-- Number of tag rows matching (owner, name). -/
def countTag (db : DB) (u : Nat) (n : String) : Nat :=
  (db.tags.filter (fun t => t.user == u && t.name == n)).length

/-- The kind of exception a user-store operation raises. -/
inductive UserErrKind where
  | valueError
  | validationError
  deriving DecidableEq

/-- A string that is empty or consists only of whitespace. -/
def isBlank (s : String) : Bool :=
  s.data.all (fun c => c.isWhitespace)

/-- Split a character list at its LAST occurrence of a separator, the meaning
of Python's `rsplit(sep, 1)`: `none` when the separator does not occur. -/
def splitLastAt (sep : Char) : List Char → Option (List Char × List Char)
  | [] => none
  | c :: cs =>
      match splitLastAt sep cs with
      | some pr => some (c :: pr.1, pr.2)
      | none => if c = sep then some ([], cs) else none

/-- Modelled from the spec: `BaseUserManager.normalize_email` as used by
`UserManager.create_user` in `core/models.py` (not among the provided
sources).  Per the spec, the email is normalized "by lower-casing only the
domain portion (local part preserved as-is)"; the domain portion is what
follows the last `@` (Python `rsplit('@', 1)`), and an email without `@` is
returned unchanged. -/
def normalizeEmail (e : String) : String :=
  match splitLastAt '@' e.data with
  | some pr => String.mk (pr.1 ++ '@' :: pr.2.map Char.toLower)
  | none => e

/-- Modelled from the spec: password hashing before persisting
(`set_password`).  The claims only require that some derived value is stored
in place of the raw password. -/
def hashPassword (p : String) : String :=
  String.mk ('#' :: p.data.reverse)

/-- Modelled from the spec: `UserManager.create_user(email, password, **extra)`
from `core/models.py` (not among the provided sources).  The spec has it fail
on an empty/blank email and otherwise persist the user with the normalized
email and hashed password; the repository's own test
(`test_new_user_email_blank` in `app/core/tests/test_models.py`) pins the
exception type to `ValueError`.  The state is returned unchanged on error, so
no record is created. -/
def create_user (db : DB) (email : String) (password : String) (nm : String) :
    Except UserErrKind User × DB :=
  if isBlank email then (Except.error UserErrKind.valueError, db)
  else
    let u : User := ⟨db.nextUserId, normalizeEmail email, hashPassword password, nm⟩
    (Except.ok u, { db with users := db.users ++ [u], nextUserId := db.nextUserId + 1 })

/-- A user-creation payload: the writable fields of `UserSerializer.Meta`
(`email`, `password`, `name`). -/
structure UserPayload where
  email : String
  password : String
  name : String
  deriving DecidableEq

/-- Embeds `UserSerializer` validation plus `create`: the `password` field carries
`min_length: 5`, so DRF rejects any shorter password with a `ValidationError`
before `create_user` runs; otherwise the user is created through
`create_user`. -/
def validateUserCreate (db : DB) (p : UserPayload) : Except UserErrKind User × DB :=
  if p.password.length < 5 then (Except.error UserErrKind.validationError, db)
  else create_user db p.email p.password p.name

/-- The serialized representation of a user (`UserSerializer.to_representation`):
`password` is declared `write_only`, so only `email` and `name` appear in any
response body. -/
def userToRepresentation (u : User) : List (String × String) :=
  [("email", u.email), ("name", u.name)]

/-- Concrete state for the C1 failing input: one user (id 1) owning recipe 1,
catalog ingredients Salt (id 1) and Sugar (id 2), with Salt attached to the
recipe. -/
def dbC1 : DB :=
  { users := [⟨1, "test@example.com", "#", "Test User"⟩],
    recipes := [⟨1, 1, "Test Recipe", 10, 1050, "https://www.example.com", "Desc"⟩],
    tags := [],
    ingredients := [⟨1, 1, "Salt"⟩, ⟨2, 1, "Sugar"⟩],
    recipeTags := [],
    recipeIngredients := [(1, 1)],
    nextUserId := 2,
    nextRecipeId := 2,
    nextTagId := 1,
    nextIngredientId := 3 }

/-- The C1 failing payload: `PATCH {"ingredients":[{"name":"Sugar"}]}`. -/
def pC1 : UpdatePayload :=
  ⟨none, none, none, none, none, none, some ["Sugar"]⟩

/-- A user-creation payload with a 3-character password. -/
def pC10 : UserPayload :=
  ⟨"test@example.com", "pwd", "Test User"⟩

/-- An arbitrary concrete stored user. -/
def uC10 : User :=
  ⟨1, "test@example.com", "#", "Test User"⟩

/-- A one-user, one-recipe state for concrete witnesses. -/
def dbW9 : DB :=
  { users := [⟨1, "a@b.c", "#", "N"⟩],
    recipes := [⟨1, 1, "T", 5, 100, "", "D"⟩],
    tags := [],
    ingredients := [],
    recipeTags := [],
    recipeIngredients := [],
    nextUserId := 2,
    nextRecipeId := 2,
    nextTagId := 1,
    nextIngredientId := 1 }

/-- A title-only PATCH payload. -/
def pW9 : UpdatePayload :=
  ⟨some "T2", none, none, none, none, none, none⟩

/-- A scalar-only creation payload. -/
def pW7 : CreatePayload :=
  ⟨"T", 5, 100, "", "D", none, none⟩

/-- A one-user state with tag Veg attached to recipe 1. -/
def dbW2 : DB :=
  { users := [⟨1, "a@b.c", "#", "N"⟩],
    recipes := [⟨1, 1, "T", 5, 100, "", "D"⟩],
    tags := [⟨1, 1, "Veg"⟩],
    ingredients := [],
    recipeTags := [(1, 1)],
    recipeIngredients := [],
    nextUserId := 2,
    nextRecipeId := 2,
    nextTagId := 2,
    nextIngredientId := 1 }

/-- The all-absent update payload. -/
def pNone : UpdatePayload :=
  ⟨none, none, none, none, none, none, none⟩

/-- Two users owning recipes, tags and ingredients with identical names. -/
def dbW3 : DB :=
  { users := [⟨1, "u1@e.c", "#", "A"⟩, ⟨2, "u2@e.c", "#", "B"⟩],
    recipes := [⟨1, 1, "Pasta", 5, 100, "", ""⟩, ⟨2, 2, "Pasta", 5, 100, "", ""⟩],
    tags := [⟨1, 1, "Veg"⟩, ⟨2, 2, "Veg"⟩],
    ingredients := [⟨1, 1, "Salt"⟩, ⟨2, 2, "Salt"⟩],
    recipeTags := [],
    recipeIngredients := [],
    nextUserId := 3,
    nextRecipeId := 3,
    nextTagId := 3,
    nextIngredientId := 3 }

/-- A creation payload carrying tag name Vegan. -/
def pW6 : CreatePayload :=
  ⟨"R", 5, 100, "", "", some ["Vegan"], none⟩

/-! ### Helper lemmas -/

theorem splitLastAt_eq_none {sep : Char} {l : List Char} (h : sep ∉ l) :
    splitLastAt sep l = none := by
  induction l with
  | nil => rfl
  | cons c cs ih =>
      simp only [List.mem_cons, not_or] at h
      have h1 : ¬ c = sep := fun e => h.1 e.symm
      simp [splitLastAt, ih h.2, h1]

theorem splitLastAt_append (l d : List Char) (sep : Char) (h : sep ∉ d) :
    splitLastAt sep (l ++ sep :: d) = some (l, d) := by
  induction l with
  | nil => simp [splitLastAt, splitLastAt_eq_none h]
  | cons c cs ih => simp [splitLastAt, ih]

theorem isBlank_of_at {l d : List Char} :
    isBlank (String.mk (l ++ '@' :: d)) = false := by
  have h : ('@').isWhitespace = false := by decide
  simp [isBlank, List.all_append, h]

theorem getOrCreateTag_frame (db : DB) (u : Nat) (n : String) :
    (getOrCreateTag db u n).2.users = db.users
    ∧ (getOrCreateTag db u n).2.recipes = db.recipes
    ∧ (getOrCreateTag db u n).2.ingredients = db.ingredients
    ∧ (getOrCreateTag db u n).2.recipeTags = db.recipeTags
    ∧ (getOrCreateTag db u n).2.recipeIngredients = db.recipeIngredients
    ∧ (getOrCreateTag db u n).2.nextRecipeId = db.nextRecipeId
    ∧ (getOrCreateTag db u n).2.nextIngredientId = db.nextIngredientId := by
  cases h : findTag db u n <;> simp [getOrCreateTag, h]

theorem getOrCreateTag_found (db : DB) (u : Nat) (n : String) (t : Tag)
    (h : findTag db u n = some t) : getOrCreateTag db u n = (t, db) := by
  simp [getOrCreateTag, h]

theorem getOrCreateTag_mem (db : DB) (u : Nat) (n : String) :
    (getOrCreateTag db u n).1 ∈ (getOrCreateTag db u n).2.tags
    ∧ (getOrCreateTag db u n).1.user = u
    ∧ (getOrCreateTag db u n).1.name = n := by
  cases h : findTag db u n with
  | some t =>
      have h2 := h
      simp only [findTag] at h2
      have hm := List.mem_of_find?_eq_some h2
      have hp := List.find?_some h2
      simp only [Bool.and_eq_true, beq_iff_eq] at hp
      simp [getOrCreateTag, h, hm, hp.1, hp.2]
  | none => simp [getOrCreateTag, h]

theorem getOrCreateTag_tags_mono (db : DB) (u : Nat) (n : String) (x : Tag)
    (hx : x ∈ db.tags) : x ∈ (getOrCreateTag db u n).2.tags := by
  cases h : findTag db u n <;> simp [getOrCreateTag, h, hx]

theorem getOrCreateTags_frame (db : DB) (u : Nat) (names : List String) (rid : Nat) :
    (getOrCreateTags db u names rid).users = db.users
    ∧ (getOrCreateTags db u names rid).recipes = db.recipes
    ∧ (getOrCreateTags db u names rid).ingredients = db.ingredients
    ∧ (getOrCreateTags db u names rid).recipeIngredients = db.recipeIngredients
    ∧ (getOrCreateTags db u names rid).nextRecipeId = db.nextRecipeId
    ∧ (getOrCreateTags db u names rid).nextIngredientId = db.nextIngredientId := by
  induction names generalizing db with
  | nil => simp [getOrCreateTags]
  | cons n rest ih =>
      simp only [getOrCreateTags]
      have hf := getOrCreateTag_frame db u n
      have hi := ih { (getOrCreateTag db u n).2 with
        recipeTags := addAssoc (getOrCreateTag db u n).2.recipeTags
          (rid, (getOrCreateTag db u n).1.id) }
      exact ⟨hi.1.trans hf.1, hi.2.1.trans hf.2.1, hi.2.2.1.trans hf.2.2.1,
             hi.2.2.2.1.trans hf.2.2.2.2.1, hi.2.2.2.2.1.trans hf.2.2.2.2.2.1,
             hi.2.2.2.2.2.trans hf.2.2.2.2.2.2⟩

theorem getOrCreateIngredient_frame (db : DB) (u : Nat) (n : String) :
    (getOrCreateIngredient db u n).2.users = db.users
    ∧ (getOrCreateIngredient db u n).2.recipes = db.recipes
    ∧ (getOrCreateIngredient db u n).2.tags = db.tags
    ∧ (getOrCreateIngredient db u n).2.recipeTags = db.recipeTags
    ∧ (getOrCreateIngredient db u n).2.recipeIngredients = db.recipeIngredients
    ∧ (getOrCreateIngredient db u n).2.nextRecipeId = db.nextRecipeId
    ∧ (getOrCreateIngredient db u n).2.nextTagId = db.nextTagId := by
  cases h : findIngredient db u n <;> simp [getOrCreateIngredient, h]

theorem getOrCreateIngredients_frame (db : DB) (u : Nat) (names : List String)
    (rid : Nat) :
    (getOrCreateIngredients db u names rid).users = db.users
    ∧ (getOrCreateIngredients db u names rid).recipes = db.recipes
    ∧ (getOrCreateIngredients db u names rid).tags = db.tags
    ∧ (getOrCreateIngredients db u names rid).recipeTags = db.recipeTags
    ∧ (getOrCreateIngredients db u names rid).nextRecipeId = db.nextRecipeId
    ∧ (getOrCreateIngredients db u names rid).nextTagId = db.nextTagId := by
  induction names generalizing db with
  | nil => simp [getOrCreateIngredients]
  | cons n rest ih =>
      simp only [getOrCreateIngredients]
      have hf := getOrCreateIngredient_frame db u n
      have hi := ih { (getOrCreateIngredient db u n).2 with
        recipeIngredients := addAssoc (getOrCreateIngredient db u n).2.recipeIngredients
          (rid, (getOrCreateIngredient db u n).1.id) }
      exact ⟨hi.1.trans hf.1, hi.2.1.trans hf.2.1, hi.2.2.1.trans hf.2.2.1,
             hi.2.2.2.1.trans hf.2.2.2.1, hi.2.2.2.2.1.trans hf.2.2.2.2.2.1,
             hi.2.2.2.2.2.trans hf.2.2.2.2.2.2⟩

theorem mem_insertDescBy {α β : Type} [LinearOrder β] (f : α → β) (a x : α)
    (l : List α) : x ∈ insertDescBy f a l ↔ x = a ∨ x ∈ l := by
  induction l with
  | nil => simp [insertDescBy]
  | cons b l ih =>
      by_cases h : f b ≤ f a
      · simp [insertDescBy, h, List.mem_cons]
      · simp only [insertDescBy, if_neg h, List.mem_cons, ih]
        tauto

theorem insertDescBy_perm {α β : Type} [LinearOrder β] (f : α → β) (a : α)
    (l : List α) : List.Perm (insertDescBy f a l) (a :: l) := by
  induction l with
  | nil => simp [insertDescBy]
  | cons b l ih =>
      by_cases h : f b ≤ f a
      · simp [insertDescBy, h]
      · simp only [insertDescBy, if_neg h]
        exact List.Perm.trans (List.Perm.cons b ih) (List.Perm.swap a b l)

theorem pairwise_insertDescBy {α β : Type} [LinearOrder β] (f : α → β) (a : α)
    (l : List α) (h : l.Pairwise (fun x y => f y ≤ f x)) :
    (insertDescBy f a l).Pairwise (fun x y => f y ≤ f x) := by
  induction l with
  | nil => simp [insertDescBy]
  | cons b l ih =>
      rcases List.pairwise_cons.mp h with ⟨hb, hl⟩
      by_cases hba : f b ≤ f a
      · simp only [insertDescBy, if_pos hba]
        refine List.pairwise_cons.mpr ⟨?_, h⟩
        intro y hy
        rcases List.mem_cons.mp hy with rfl | hy2
        · exact hba
        · exact le_trans (hb y hy2) hba
      · simp only [insertDescBy, if_neg hba]
        refine List.pairwise_cons.mpr ⟨?_, ih hl⟩
        intro y hy
        rcases (mem_insertDescBy f a y l).mp hy with rfl | hy2
        · exact le_of_not_le hba
        · exact hb y hy2

theorem sortDescBy_perm {α β : Type} [LinearOrder β] (f : α → β) (l : List α) :
    List.Perm (sortDescBy f l) l := by
  induction l with
  | nil => simp [sortDescBy]
  | cons a l ih => exact List.Perm.trans (insertDescBy_perm f a _) (List.Perm.cons a ih)

theorem sortDescBy_pairwise {α β : Type} [LinearOrder β] (f : α → β) (l : List α) :
    (sortDescBy f l).Pairwise (fun x y => f y ≤ f x) := by
  induction l with
  | nil => simp [sortDescBy]
  | cons a l ih => exact pairwise_insertDescBy f a _ ih

theorem filter_of_clear (l : List (Nat × Nat)) (rid : Nat) :
    (l.filter fun q => !(q.1 == rid)).filter (fun q => q.1 == rid) = [] := by
  induction l with
  | nil => rfl
  | cons a l ih => by_cases h : (a.1 == rid) = true <;> simp [List.filter_cons, h, ih]

theorem clearRecipeTags_idem (db : DB) (rid : Nat) :
    clearRecipeTags (clearRecipeTags db rid) rid = clearRecipeTags db rid := by
  have h : ∀ l : List (Nat × Nat),
      (l.filter fun q => !(q.1 == rid)).filter (fun q => !(q.1 == rid))
        = l.filter fun q => !(q.1 == rid) := by
    intro l
    induction l with
    | nil => rfl
    | cons a l ih => by_cases ha : (a.1 == rid) = true <;> simp [List.filter_cons, ha, ih]
  simp [clearRecipeTags, h]

theorem recipeTagIds_clear (db : DB) (rid : Nat) :
    recipeTagIds (clearRecipeTags db rid) rid = [] := by
  simp [recipeTagIds, clearRecipeTags, filter_of_clear]

theorem mem_addAssoc (l : List (Nat × Nat)) (x q : Nat × Nat) :
    q ∈ addAssoc l x ↔ q ∈ l ∨ q = x := by
  by_cases h : x ∈ l
  · simp only [addAssoc, if_pos h]
    exact ⟨Or.inl, fun o => o.elim id (fun e => e ▸ h)⟩
  · simp [addAssoc, if_neg h]

theorem addAssoc_self (l : List (Nat × Nat)) (x : Nat × Nat) : x ∈ addAssoc l x :=
  (mem_addAssoc l x x).mpr (Or.inr rfl)

theorem addAssoc_mono (l : List (Nat × Nat)) (x q : Nat × Nat) (h : q ∈ l) :
    q ∈ addAssoc l x :=
  (mem_addAssoc l x q).mpr (Or.inl h)

theorem getOrCreateTags_tags_mono (db : DB) (u : Nat) (names : List String)
    (rid : Nat) (x : Tag) (hx : x ∈ db.tags) :
    x ∈ (getOrCreateTags db u names rid).tags := by
  induction names generalizing db with
  | nil => simpa [getOrCreateTags] using hx
  | cons n rest ih =>
      simp only [getOrCreateTags]
      exact ih _ (getOrCreateTag_tags_mono db u n x hx)

theorem getOrCreateTags_assoc_mono (db : DB) (u : Nat) (names : List String)
    (rid : Nat) (q : Nat × Nat) (hq : q ∈ db.recipeTags) :
    q ∈ (getOrCreateTags db u names rid).recipeTags := by
  induction names generalizing db with
  | nil => simpa [getOrCreateTags] using hq
  | cons n rest ih =>
      simp only [getOrCreateTags]
      refine ih _ (addAssoc_mono _ _ _ ?_)
      exact ((getOrCreateTag_frame db u n).2.2.2.1).symm ▸ hq

theorem getOrCreateTags_assoc_origin (db : DB) (u : Nat) (names : List String)
    (rid : Nat) :
    ∀ q ∈ (getOrCreateTags db u names rid).recipeTags,
      q ∈ db.recipeTags
      ∨ (q.1 = rid ∧ ∃ t, t ∈ (getOrCreateTags db u names rid).tags
          ∧ t.id = q.2 ∧ t.user = u ∧ t.name ∈ names) := by
  induction names generalizing db with
  | nil => exact fun q hq => Or.inl hq
  | cons n rest ih =>
      intro q hq
      simp only [getOrCreateTags] at hq ⊢
      rcases ih { (getOrCreateTag db u n).2 with
          recipeTags := addAssoc (getOrCreateTag db u n).2.recipeTags
            (rid, (getOrCreateTag db u n).1.id) } q hq with h1 | ⟨hrid, t, ht, hid, hu, hn⟩
      · have h1b : q ∈ addAssoc (getOrCreateTag db u n).2.recipeTags
            (rid, (getOrCreateTag db u n).1.id) := h1
        rcases (mem_addAssoc _ _ _).mp h1b with h2 | h2
        · exact Or.inl ((getOrCreateTag_frame db u n).2.2.2.1 ▸ h2)
        · subst h2
          refine Or.inr ⟨rfl, (getOrCreateTag db u n).1, ?_, rfl,
            (getOrCreateTag_mem db u n).2.1, ?_⟩
          · exact getOrCreateTags_tags_mono _ u rest rid _ (getOrCreateTag_mem db u n).1
          · rw [(getOrCreateTag_mem db u n).2.2]
            exact List.mem_cons_self n rest
      · exact Or.inr ⟨hrid, t, ht, hid, hu, List.mem_cons_of_mem n hn⟩

theorem addAssoc_nodup (l : List (Nat × Nat)) (x : Nat × Nat) (h : l.Nodup) :
    (addAssoc l x).Nodup := by
  by_cases hx : x ∈ l
  · simpa [addAssoc, hx] using h
  · simp [addAssoc, hx, List.nodup_append, h]

theorem getOrCreateTags_assoc_nodup (db : DB) (u : Nat) (names : List String)
    (rid : Nat) (h : db.recipeTags.Nodup) :
    (getOrCreateTags db u names rid).recipeTags.Nodup := by
  induction names generalizing db with
  | nil => simpa [getOrCreateTags] using h
  | cons n rest ih =>
      simp only [getOrCreateTags]
      refine ih _ ?_
      exact addAssoc_nodup _ _ ((getOrCreateTag_frame db u n).2.2.2.1.symm ▸ h)

theorem findTag_eq_none_of_count (db : DB) (u : Nat) (n : String)
    (h : countTag db u n = 0) : findTag db u n = none := by
  have h2 : db.tags.filter (fun t => t.user == u && t.name == n) = [] :=
    List.length_eq_zero.mp h
  exact List.find?_eq_none.mpr (List.filter_eq_nil_iff.mp h2)

theorem find?_append_none {α : Type} (p : α → Bool) (l1 l2 : List α)
    (h : l1.find? p = none) : (l1 ++ l2).find? p = l2.find? p := by
  induction l1 with
  | nil => rfl
  | cons a l ih =>
      have ha : ¬ p a = true := List.find?_eq_none.mp h a (List.mem_cons_self a l)
      have hl : l.find? p = none :=
        List.find?_eq_none.mpr
          (fun x hx => List.find?_eq_none.mp h x (List.mem_cons_of_mem a hx))
      simp only [List.cons_append]
      rw [List.find?_cons_of_neg _ ha, ih hl]

theorem getOrCreateTags_single_new (db : DB) (u : Nat) (n : String) (rid : Nat)
    (h : findTag db u n = none) :
    (getOrCreateTags db u [n] rid).tags = db.tags ++ [⟨db.nextTagId, u, n⟩]
    ∧ (rid, db.nextTagId) ∈ (getOrCreateTags db u [n] rid).recipeTags := by
  refine ⟨?_, ?_⟩ <;> simp [getOrCreateTags, getOrCreateTag, h, addAssoc_self]

theorem getOrCreateTags_single_found (db : DB) (u : Nat) (n : String) (rid : Nat)
    (t : Tag) (h : findTag db u n = some t) :
    (getOrCreateTags db u [n] rid).tags = db.tags
    ∧ (rid, t.id) ∈ (getOrCreateTags db u [n] rid).recipeTags
    ∧ (getOrCreateTags db u [n] rid).recipeTags = addAssoc db.recipeTags (rid, t.id) := by
  refine ⟨?_, ?_, ?_⟩ <;> simp [getOrCreateTags, getOrCreateTag, h, addAssoc_self]

theorem createRecipe_twice_shared_tag (db : DB) (u : Nat) (n : String)
    (p : CreatePayload) (hcount : countTag db u n = 0) (hp : p.tags = some [n]) :
    countTag (createRecipe (createRecipe db u p).1 u p).1 u n = 1
    ∧ ∃ t2 : Tag,
        t2 ∈ (createRecipe (createRecipe db u p).1 u p).1.tags
        ∧ t2.user = u ∧ t2.name = n
        ∧ ((createRecipe db u p).2, t2.id)
            ∈ (createRecipe (createRecipe db u p).1 u p).1.recipeTags
        ∧ ((createRecipe (createRecipe db u p).1 u p).2, t2.id)
            ∈ (createRecipe (createRecipe db u p).1 u p).1.recipeTags
        ∧ (createRecipe db u p).2 ≠ (createRecipe (createRecipe db u p).1 u p).2 := by
  have hf : findTag db u n = none := findTag_eq_none_of_count db u n hcount
  have hstep1 : (createRecipe db u p).1
      = getOrCreateIngredients
          (getOrCreateTags (insertRecipeRow db u p) u [n] db.nextRecipeId)
          u (p.ingredients.getD []) db.nextRecipeId := by
    simp only [createRecipe, hp, Option.getD_some]
  have hfA : findTag (insertRecipeRow db u p) u n = none := hf
  have hs1 := getOrCreateTags_single_new (insertRecipeRow db u p) u n db.nextRecipeId hfA
  have hif1 := getOrCreateIngredients_frame
      (getOrCreateTags (insertRecipeRow db u p) u [n] db.nextRecipeId)
      u (p.ingredients.getD []) db.nextRecipeId
  have htags1 : (createRecipe db u p).1.tags = db.tags ++ [⟨db.nextTagId, u, n⟩] := by
    rw [hstep1, hif1.2.2.1]
    exact hs1.1
  have hassoc1 : (db.nextRecipeId, db.nextTagId) ∈ (createRecipe db u p).1.recipeTags := by
    rw [hstep1, hif1.2.2.2.1]
    exact hs1.2
  have hnext1 : (createRecipe db u p).1.nextRecipeId = db.nextRecipeId + 1 := by
    rw [hstep1, hif1.2.2.2.2.1]
    exact (getOrCreateTags_frame (insertRecipeRow db u p) u [n] db.nextRecipeId).2.2.2.2.1
  have hpred : (fun t : Tag => t.user == u && t.name == n) ⟨db.nextTagId, u, n⟩ = true := by
    simp
  have hfind2 : findTag (createRecipe db u p).1 u n = some ⟨db.nextTagId, u, n⟩ := by
    show ((createRecipe db u p).1.tags).find? (fun t => t.user == u && t.name == n) = _
    rw [htags1, find?_append_none _ _ _ hf]
    exact List.find?_cons_of_pos _ hpred
  have hstep2 : (createRecipe (createRecipe db u p).1 u p).1
      = getOrCreateIngredients
          (getOrCreateTags (insertRecipeRow (createRecipe db u p).1 u p) u [n]
            (createRecipe db u p).1.nextRecipeId)
          u (p.ingredients.getD []) (createRecipe db u p).1.nextRecipeId := by
    simp only [createRecipe, hp, Option.getD_some]
  have hfB : findTag (insertRecipeRow (createRecipe db u p).1 u p) u n
      = some ⟨db.nextTagId, u, n⟩ := hfind2
  have hs2 := getOrCreateTags_single_found (insertRecipeRow (createRecipe db u p).1 u p)
      u n (createRecipe db u p).1.nextRecipeId ⟨db.nextTagId, u, n⟩ hfB
  have hif2 := getOrCreateIngredients_frame
      (getOrCreateTags (insertRecipeRow (createRecipe db u p).1 u p) u [n]
        (createRecipe db u p).1.nextRecipeId)
      u (p.ingredients.getD []) (createRecipe db u p).1.nextRecipeId
  have htags2 : (createRecipe (createRecipe db u p).1 u p).1.tags
      = db.tags ++ [⟨db.nextTagId, u, n⟩] := by
    rw [hstep2, hif2.2.2.1, hs2.1]
    exact htags1
  have hrt2 : (createRecipe (createRecipe db u p).1 u p).1.recipeTags
      = addAssoc (createRecipe db u p).1.recipeTags
          ((createRecipe db u p).1.nextRecipeId, db.nextTagId) := by
    rw [hstep2, hif2.2.2.2.1]
    exact hs2.2.2
  constructor
  · have hnil : db.tags.filter (fun t => t.user == u && t.name == n) = [] :=
      List.length_eq_zero.mp hcount
    show ((createRecipe (createRecipe db u p).1 u p).1.tags.filter
        (fun t => t.user == u && t.name == n)).length = 1
    rw [htags2, List.filter_append, hnil]
    simp
  · refine ⟨⟨db.nextTagId, u, n⟩, ?_, rfl, rfl, ?_, ?_, ?_⟩
    · rw [htags2]
      exact List.mem_append_right _ (List.mem_singleton_self _)
    · rw [hrt2]
      exact addAssoc_mono _ _ _ hassoc1
    · rw [hrt2]
      exact addAssoc_self _ _
    · have h1 : (createRecipe db u p).2 = db.nextRecipeId := rfl
      have h2 : (createRecipe (createRecipe db u p).1 u p).2 = db.nextRecipeId + 1 := hnext1
      rw [h1, h2]
      exact Nat.ne_of_lt (Nat.lt_succ_self _)

theorem getOrCreateTags_names_covered (db : DB) (u : Nat) (names : List String)
    (rid : Nat) :
    ∀ m ∈ names, ∃ t : Tag,
      t ∈ (getOrCreateTags db u names rid).tags
      ∧ t.user = u ∧ t.name = m
      ∧ (rid, t.id) ∈ (getOrCreateTags db u names rid).recipeTags := by
  induction names generalizing db with
  | nil => intro m hm; cases hm
  | cons n rest ih =>
      intro m hm
      simp only [getOrCreateTags]
      rcases List.mem_cons.mp hm with rfl | hm2
      · refine ⟨(getOrCreateTag db u m).1, ?_, (getOrCreateTag_mem db u m).2.1,
          (getOrCreateTag_mem db u m).2.2, ?_⟩
        · exact getOrCreateTags_tags_mono _ u rest rid _ (getOrCreateTag_mem db u m).1
        · exact getOrCreateTags_assoc_mono _ u rest rid _ (addAssoc_self _ _)
      · exact ih _ m hm2

/-! ### Claim theorems -/

/-- Claim C8: the list operations return the caller's records in a fixed
order: the recipe list is a permutation of the caller's recipe rows sorted by
descending id, and the tag and ingredient lists are the caller's rows sorted
by descending name. -/
theorem list_ordering (db : DB) (u : Nat) :
    List.Perm (recipeListFor db u) (db.recipes.filter (fun r => r.user == u))
    ∧ (recipeListFor db u).Pairwise (fun a b => b.id ≤ a.id)
    ∧ List.Perm (tagListFor db u) (db.tags.filter (fun t => t.user == u))
    ∧ (tagListFor db u).Pairwise (fun a b => b.name ≤ a.name)
    ∧ List.Perm (ingredientListFor db u) (db.ingredients.filter (fun i => i.user == u))
    ∧ (ingredientListFor db u).Pairwise (fun a b => b.name ≤ a.name) :=
  ⟨sortDescBy_perm _ _, sortDescBy_pairwise _ _, sortDescBy_perm _ _,
   sortDescBy_pairwise _ _, sortDescBy_perm _ _, sortDescBy_pairwise _ _⟩

/-- Claim C1, evaluated at the failing input: a PATCH carrying
`ingredients: [{"name":"Sugar"}]` against recipe 1, which currently has Salt
(ingredient id 1) attached.  Because `RecipeSerializer.update` never pops
`ingredients`, the request dies in the `setattr` loop (flag `false`), the
state is unchanged, and Salt is still the only attached ingredient — the
documented/tested outcome (Sugar attached, Salt detached) never happens. -/
theorem update_ingredients_code_bug :
    (updateRecipe dbC1 1 1 pC1).2 = false
    ∧ (updateRecipe dbC1 1 1 pC1).1 = dbC1
    ∧ recipeIngredientIds (updateRecipe dbC1 1 1 pC1).1 1 = [1] := by
  decide

/-- Claim C4 counterexample: on a blank email, `create_user` fails with
`ValueError` (as the repository's own model test asserts), not with a
`ValidationError` as the claim states. -/
theorem create_user_blank_email_cex :
    (create_user emptyDB "" "test123" "Test").1 = Except.error UserErrKind.valueError
    ∧ UserErrKind.valueError ≠ UserErrKind.validationError :=
  ⟨rfl, by decide⟩

/-- Claim C4 (amended): for every password and extra fields, `create_user`
on an empty or blank email fails with a `ValueError` and leaves the user
store unchanged, so no user record is created. -/
theorem create_user_blank_email_value_error (db : DB) (email password nm : String)
    (h : isBlank email = true) :
    create_user db email password nm = (Except.error UserErrKind.valueError, db) := by
  simp [create_user, h]

theorem create_user_blank_email_value_error_witness :
    isBlank "" = true
    ∧ create_user emptyDB "" "test123" "Test"
        = (Except.error UserErrKind.valueError, emptyDB) :=
  ⟨by decide, create_user_blank_email_value_error emptyDB "" "test123" "Test" (by decide)⟩

/-- Claim C10: user creation rejects any password shorter than 5 characters
with a validation error (leaving the store unchanged), and the serialized
user representation never contains a `password` field. -/
theorem password_min_length_write_only (db : DB) (p : UserPayload) (u : User)
    (h : p.password.length < 5) :
    validateUserCreate db p = (Except.error UserErrKind.validationError, db)
    ∧ "password" ∉ (userToRepresentation u).map Prod.fst := by
  constructor
  · simp [validateUserCreate, h]
  · simp [userToRepresentation]

theorem password_min_length_write_only_witness :
    pC10.password.length < 5
    ∧ (validateUserCreate emptyDB pC10 = (Except.error UserErrKind.validationError, emptyDB)
        ∧ "password" ∉ (userToRepresentation uC10).map Prod.fst) :=
  ⟨by decide, password_min_length_write_only emptyDB pC10 uC10 (by decide)⟩

/-- Claim C5: for every email of the form local@domain (the domain part being
what follows the last `@`), `create_user` stores the local part exactly as
supplied followed by `@` and the lower-cased domain part: only the domain
substring is normalized. -/
theorem create_user_normalizes_domain (db : DB) (l d : List Char)
    (password nm : String) (hd : '@' ∉ d) :
    ∃ u : User,
      (create_user db (String.mk (l ++ '@' :: d)) password nm).1 = Except.ok u
      ∧ u.email = String.mk (l ++ '@' :: d.map Char.toLower) := by
  have hb : isBlank (String.mk (l ++ '@' :: d)) = false := isBlank_of_at
  have hn : normalizeEmail (String.mk (l ++ '@' :: d))
      = String.mk (l ++ '@' :: d.map Char.toLower) := by
    simp [normalizeEmail, splitLastAt_append l d '@' hd]
  refine ⟨⟨db.nextUserId, normalizeEmail (String.mk (l ++ '@' :: d)),
           hashPassword password, nm⟩, ?_, hn⟩
  simp [create_user, hb]

theorem create_user_normalizes_domain_witness :
    '@' ∉ "Example.com".data
    ∧ ∃ u : User,
        (create_user emptyDB (String.mk ("Test3".data ++ '@' :: "Example.com".data))
            "test123" "Test").1 = Except.ok u
        ∧ u.email = String.mk ("Test3".data ++ '@' :: "Example.com".data.map Char.toLower) :=
  ⟨by decide,
   create_user_normalizes_domain emptyDB "Test3".data "Example.com".data
     "test123" "Test" (by decide)⟩

/-- Claim C7: for every create request and payload, the new recipe row is
owned by the authenticated caller `u`; the payload type mirrors the
serializer's writable fields and carries no owner, so no payload content can
set a different owner. -/
theorem create_binds_owner (db : DB) (u : Nat) (p : CreatePayload) :
    ∃ r : Recipe,
      (createRecipe db u p).1.recipes = db.recipes ++ [r]
      ∧ r.id = (createRecipe db u p).2
      ∧ r.user = u := by
  refine ⟨⟨db.nextRecipeId, u, p.title, p.timeMinutes, p.price, p.link, p.description⟩,
          ?_, rfl, rfl⟩
  simp only [createRecipe]
  have h1 := (getOrCreateIngredients_frame
    (getOrCreateTags (insertRecipeRow db u p) u (p.tags.getD []) db.nextRecipeId)
    u (p.ingredients.getD []) db.nextRecipeId).2.1
  have h2 := (getOrCreateTags_frame
    (insertRecipeRow db u p) u (p.tags.getD []) db.nextRecipeId).2.1
  exact h1.trans h2

theorem create_binds_owner_witness :
    ∃ r : Recipe,
      (createRecipe emptyDB 1 pW7).1.recipes = emptyDB.recipes ++ [r]
      ∧ r.id = (createRecipe emptyDB 1 pW7).2
      ∧ r.user = 1 :=
  create_binds_owner emptyDB 1 pW7

/-- Claim C9: every recipe row present after an update corresponds to a
pre-update row with the same id and the same owner: `user` is not among the
serializer's writable fields and the update path assigns only payload fields,
so no update can transfer a recipe to another user. -/
theorem update_preserves_owner (db : DB) (rid u : Nat) (p : UpdatePayload)
    (r : Recipe) (hr : r ∈ (updateRecipe db rid u p).1.recipes) :
    ∃ r0 : Recipe, r0 ∈ db.recipes ∧ r0.id = r.id ∧ r0.user = r.user := by
  cases htags : p.tags with
  | none =>
      cases hpi : p.ingredients with
      | none =>
          simp only [updateRecipe, htags, hpi, List.mem_map] at hr
          rcases hr with ⟨r0, hr0, hgr⟩
          subst hgr
          refine ⟨r0, hr0, ?_, ?_⟩ <;>
            by_cases hc : (r0.id == rid) = true <;> simp [hc, setScalars]
      | some ig =>
          simp only [updateRecipe, htags, hpi] at hr
          exact ⟨r, hr, rfl, rfl⟩
  | some names =>
      have hrec : (getOrCreateTags (clearRecipeTags db rid) u names rid).recipes
          = db.recipes :=
        (getOrCreateTags_frame (clearRecipeTags db rid) u names rid).2.1
      cases hpi : p.ingredients with
      | none =>
          simp only [updateRecipe, htags, hpi, List.mem_map, hrec] at hr
          rcases hr with ⟨r0, hr0, hgr⟩
          subst hgr
          refine ⟨r0, hr0, ?_, ?_⟩ <;>
            by_cases hc : (r0.id == rid) = true <;> simp [hc, setScalars]
      | some ig =>
          simp only [updateRecipe, htags, hpi, hrec] at hr
          exact ⟨r, hr, rfl, rfl⟩

theorem update_preserves_owner_witness :
    ∃ r0 : Recipe, r0 ∈ dbW9.recipes
      ∧ r0.id = (⟨1, 1, "T2", 5, 100, "", "D"⟩ : Recipe).id
      ∧ r0.user = (⟨1, 1, "T2", 5, 100, "", "D"⟩ : Recipe).user :=
  update_preserves_owner dbW9 1 1 pW9 ⟨1, 1, "T2", 5, 100, "", "D"⟩ (by decide)

/-- Claim C2: tag-association replacement on update is optional per field.
If `tags` is absent, the association table is untouched by the update; if
present, the result coincides with updating the already-cleared state (prior
associations are irrelevant because they are cleared first); `tags: []` leaves
the recipe with no tag associations; and every association the update leaves
on the recipe was produced by get-or-create reconciliation of a supplied name,
owned by the caller. -/
theorem update_tags_optional_replacement (db : DB) (rid u : Nat) (p : UpdatePayload)
    (names : List String) :
    (updateRecipe db rid u { p with tags := none }).1.recipeTags = db.recipeTags
    ∧ updateRecipe db rid u { p with tags := some names }
        = updateRecipe (clearRecipeTags db rid) rid u { p with tags := some names }
    ∧ recipeTagIds (updateRecipe db rid u { p with tags := some [] }).1 rid = []
    ∧ (∀ q, q ∈ (updateRecipe db rid u { p with tags := some names }).1.recipeTags →
        q.1 = rid →
        ∃ t, t ∈ (updateRecipe db rid u { p with tags := some names }).1.tags
          ∧ t.id = q.2 ∧ t.user = u ∧ t.name ∈ names)
    ∧ (∀ m ∈ names, ∃ t : Tag,
        t ∈ (updateRecipe db rid u { p with tags := some names }).1.tags
        ∧ t.user = u ∧ t.name = m
        ∧ (rid, t.id) ∈ (updateRecipe db rid u { p with tags := some names }).1.recipeTags) := by
  have key : ∀ q, q ∈ (getOrCreateTags (clearRecipeTags db rid) u names rid).recipeTags →
      q.1 = rid →
      ∃ t, t ∈ (getOrCreateTags (clearRecipeTags db rid) u names rid).tags
        ∧ t.id = q.2 ∧ t.user = u ∧ t.name ∈ names := by
    intro q hq hq1
    rcases getOrCreateTags_assoc_origin (clearRecipeTags db rid) u names rid q hq with
      h1 | ⟨_, t, ht, hid, hu, hn⟩
    · exfalso
      simp [clearRecipeTags, List.mem_filter, hq1] at h1
    · exact ⟨t, ht, hid, hu, hn⟩
  refine ⟨?_, ?_, ?_, ?_, ?_⟩
  · cases hpi : p.ingredients <;> simp [updateRecipe, hpi]
  · simp only [updateRecipe]
    rw [clearRecipeTags_idem]
  · cases hpi : p.ingredients <;>
      simp [updateRecipe, hpi, getOrCreateTags, recipeTagIds, clearRecipeTags,
            filter_of_clear]
  · intro q hq hq1
    cases hpi : p.ingredients with
    | none =>
        simp only [updateRecipe, hpi] at hq ⊢
        exact key q hq hq1
    | some ig =>
        simp only [updateRecipe, hpi] at hq ⊢
        exact key q hq hq1
  · intro m hm
    cases hpi : p.ingredients with
    | none =>
        simp only [updateRecipe, hpi]
        exact getOrCreateTags_names_covered (clearRecipeTags db rid) u names rid m hm
    | some ig =>
        simp only [updateRecipe, hpi]
        exact getOrCreateTags_names_covered (clearRecipeTags db rid) u names rid m hm

theorem update_tags_optional_replacement_witness :
    (updateRecipe dbW2 1 1 { pNone with tags := none }).1.recipeTags = dbW2.recipeTags
    ∧ recipeTagIds (updateRecipe dbW2 1 1 { pNone with tags := some [] }).1 1 = [] :=
  ⟨(update_tags_optional_replacement dbW2 1 1 pNone []).1,
   (update_tags_optional_replacement dbW2 1 1 pNone []).2.2.1⟩

/-- Claim C3: every list operation returns only records owned by the caller
`u`, even when a distinct user `v` owns records with identical names (the
quantification is over all states, including such); and a detail/update/delete
lookup naming a record owned by `v` resolves to 404 through
`get_object_or_404` over the owner-filtered queryset, never to 403.
The id-nodup hypotheses state that primary keys are unique. -/
theorem owner_scoping (db : DB) (u v : Nat) (huv : u ≠ v)
    (hrid : (db.recipes.map Recipe.id).Nodup)
    (htid : (db.tags.map Tag.id).Nodup) :
    (∀ r, r ∈ recipeListFor db u → r.user = u)
    ∧ (∀ t, t ∈ tagListFor db u → t.user = u)
    ∧ (∀ i, i ∈ ingredientListFor db u → i.user = u)
    ∧ (∀ r, r ∈ db.recipes → r.user = v →
        recipeDetailStatus db u r.id = 404 ∧ recipeDetailStatus db u r.id ≠ 403)
    ∧ (∀ t, t ∈ db.tags → t.user = v →
        tagDetailStatus db u t.id = 404 ∧ tagDetailStatus db u t.id ≠ 403) := by
  refine ⟨?_, ?_, ?_, ?_, ?_⟩
  · intro r hr
    have hr2 := (sortDescBy_perm Recipe.id (db.recipes.filter (fun x => x.user == u))).mem_iff.mp hr
    exact beq_iff_eq.mp (List.mem_filter.mp hr2).2
  · intro t ht
    have ht2 := (sortDescBy_perm Tag.name (db.tags.filter (fun x => x.user == u))).mem_iff.mp ht
    exact beq_iff_eq.mp (List.mem_filter.mp ht2).2
  · intro i hi
    have hi2 := (sortDescBy_perm Ingredient.name (db.ingredients.filter (fun x => x.user == u))).mem_iff.mp hi
    exact beq_iff_eq.mp (List.mem_filter.mp hi2).2
  · intro r hr hv
    have hnone : (db.recipes.filter fun x => x.user == u).find? (fun x => x.id == r.id) = none := by
      apply List.find?_eq_none.mpr
      intro x hx hpx
      have hxf := List.mem_filter.mp hx
      have hxu : x.user = u := beq_iff_eq.mp hxf.2
      have hxid : x.id = r.id := beq_iff_eq.mp hpx
      have hxr : x = r := List.inj_on_of_nodup_map hrid hxf.1 hr hxid
      exact huv (hxu.symm.trans (hxr.symm ▸ (hxr ▸ hv : x.user = v)))
    constructor <;> simp [recipeDetailStatus, getRecipeObject, hnone]
  · intro t ht hv
    have hnone : (db.tags.filter fun x => x.user == u).find? (fun x => x.id == t.id) = none := by
      apply List.find?_eq_none.mpr
      intro x hx hpx
      have hxf := List.mem_filter.mp hx
      have hxu : x.user = u := beq_iff_eq.mp hxf.2
      have hxid : x.id = t.id := beq_iff_eq.mp hpx
      have hxt : x = t := List.inj_on_of_nodup_map htid hxf.1 ht hxid
      exact huv (hxu.symm.trans (hxt.symm ▸ (hxt ▸ hv : x.user = v)))
    constructor <;> simp [tagDetailStatus, getTagObject, hnone]

theorem owner_scoping_witness :
    (∀ r, r ∈ recipeListFor dbW3 1 → r.user = 1)
    ∧ (∀ t, t ∈ tagListFor dbW3 1 → t.user = 1)
    ∧ (∀ i, i ∈ ingredientListFor dbW3 1 → i.user = 1)
    ∧ (∀ r, r ∈ dbW3.recipes → r.user = 2 →
        recipeDetailStatus dbW3 1 r.id = 404 ∧ recipeDetailStatus dbW3 1 r.id ≠ 403)
    ∧ (∀ t, t ∈ dbW3.tags → t.user = 2 →
        tagDetailStatus dbW3 1 t.id = 404 ∧ tagDetailStatus dbW3 1 t.id ≠ 403) :=
  owner_scoping dbW3 1 2 (by decide) (by decide) (by decide)

/-- Claim C6: reconciliation is an idempotent get-or-create keyed on
(owner, name).  A lookup hit creates nothing and returns the existing row;
association adds keep set semantics, so duplicate input names collapse to a
single association (no duplicate pairs ever appear); and creating two recipes
for the same user whose payloads carry the same tag name yields exactly one
Tag row for that (user, name) pair, associated with both (distinct)
recipes. -/
theorem get_or_create_reconciliation (db : DB) (u : Nat) (n : String) (t : Tag)
    (names : List String) (rid : Nat) (p : CreatePayload) :
    (findTag db u n = some t → getOrCreateTag db u n = (t, db))
    ∧ (db.recipeTags.Nodup → (getOrCreateTags db u names rid).recipeTags.Nodup)
    ∧ (countTag db u n = 0 → p.tags = some [n] →
        countTag (createRecipe (createRecipe db u p).1 u p).1 u n = 1
        ∧ ∃ t2 : Tag,
            t2 ∈ (createRecipe (createRecipe db u p).1 u p).1.tags
            ∧ t2.user = u ∧ t2.name = n
            ∧ ((createRecipe db u p).2, t2.id)
                ∈ (createRecipe (createRecipe db u p).1 u p).1.recipeTags
            ∧ ((createRecipe (createRecipe db u p).1 u p).2, t2.id)
                ∈ (createRecipe (createRecipe db u p).1 u p).1.recipeTags
            ∧ (createRecipe db u p).2 ≠ (createRecipe (createRecipe db u p).1 u p).2) :=
  ⟨getOrCreateTag_found db u n t,
   getOrCreateTags_assoc_nodup db u names rid,
   fun hcount hp => createRecipe_twice_shared_tag db u n p hcount hp⟩

theorem get_or_create_reconciliation_witness :
    getOrCreateTag dbW2 1 "Veg" = (⟨1, 1, "Veg"⟩, dbW2)
    ∧ (getOrCreateTags emptyDB 1 ["Veg", "Veg"] 1).recipeTags.Nodup
    ∧ (countTag (createRecipe (createRecipe emptyDB 1 pW6).1 1 pW6).1 1 "Vegan" = 1
        ∧ ∃ t2 : Tag,
            t2 ∈ (createRecipe (createRecipe emptyDB 1 pW6).1 1 pW6).1.tags
            ∧ t2.user = 1 ∧ t2.name = "Vegan"
            ∧ ((createRecipe emptyDB 1 pW6).2, t2.id)
                ∈ (createRecipe (createRecipe emptyDB 1 pW6).1 1 pW6).1.recipeTags
            ∧ ((createRecipe (createRecipe emptyDB 1 pW6).1 1 pW6).2, t2.id)
                ∈ (createRecipe (createRecipe emptyDB 1 pW6).1 1 pW6).1.recipeTags
            ∧ (createRecipe emptyDB 1 pW6).2
                ≠ (createRecipe (createRecipe emptyDB 1 pW6).1 1 pW6).2) :=
  ⟨(get_or_create_reconciliation dbW2 1 "Veg" ⟨1, 1, "Veg"⟩ [] 1 pW6).1 (by decide),
   (get_or_create_reconciliation emptyDB 1 "Veg" ⟨1, 1, "Veg"⟩ ["Veg", "Veg"] 1 pW6).2.1
     (by decide),
   (get_or_create_reconciliation emptyDB 1 "Vegan" ⟨1, 1, "Vegan"⟩ [] 1 pW6).2.2
     (by decide) rfl⟩

end RecipeApp
